/-
Verification of the SimOTA label-assignment core (nano/models/assigners/simota.py).

Shallow embedding conventions:
  * Tensors become lists (image-major, anchor-major as in the source).
  * Floats become rationals.  The two transcendental primitives touched by
    the cost matrix, `torch.log` (as used after the additive 1e-8 epsilon,
    and inside `binary_cross_entropy`, which internally clamps its logs) and
    `sigmoid`, are abstracted as function parameters `rlog` and `sigm`;
    every structural statement below holds for an arbitrary choice of these
    functions, and concrete witnesses instantiate them with computable maps.
  * `torch.topk(v, k, largest=False)` selects the k smallest entries,
    returning lower indices first on ties (the tie-break the spec itself
    pins down); it raises when k exceeds the length of `v`.  We model the
    selected index set as the set of indices of lexicographic (value, index)
    rank below k, and the failure case with `Option`.
  * `torch.min(_, dim=0)` / `argmax(0)` return the first extremal index.
  * `self.max_topk` (the diagnostic written in `dynamic_topk`) is threaded
    explicitly as a state value.
-/
import Mathlib

namespace SimOTA

/-- Axis-aligned box `(x1, y1, x2, y2)` in absolute image coordinates. -/
structure Box where
  x1 : ℚ
  y1 : ℚ
  x2 : ℚ
  y2 : ℚ
deriving DecidableEq, Inhabited

/-- `(x2 - x1) * (y2 - y1)`, the (signed) area used by `box_iou`. -/
def boxArea (b : Box) : ℚ := (b.x2 - b.x1) * (b.y2 - b.y1)

/-- Intersection area with the clamp-at-zero of `torchvision.ops.box_iou`. -/
def boxInter (a b : Box) : ℚ :=
  max (min a.x2 b.x2 - max a.x1 b.x1) 0 * max (min a.y2 b.y2 - max a.y1 b.y1) 0

/-- Pairwise IoU, `inter / (area1 + area2 - inter)` as in `torchvision.ops.box_iou`. -/
def boxIou (a b : Box) : ℚ := boxInter a b / (boxArea a + boxArea b - boxInter a b)

/-- A well-formed box: non-negative extents. -/
def Box.valid (b : Box) : Prop := b.x1 ≤ b.x2 ∧ b.y1 ≤ b.y2

/-- A box with strictly positive area. -/
def Box.posArea (b : Box) : Prop := b.x1 < b.x2 ∧ b.y1 < b.y2

instance : DecidablePred Box.valid := fun b => by
  unfold Box.valid; infer_instance

instance : DecidablePred Box.posArea := fun b => by
  unfold Box.posArea; infer_instance

/-- One anchor of the detection grid: grid coordinates and stride
(one row of `grid_mask` together with its `stride_mask` entry). -/
structure Anchor where
  gx : ℚ
  gy : ℚ
  stride : ℚ
deriving DecidableEq, Inhabited

/-- `(grid_mask[..., 0] + 0.5) * stride_mask`: anchor center x. -/
def anchorCx (a : Anchor) : ℚ := (a.gx + 1 / 2) * a.stride

/-- `(grid_mask[..., 1] + 0.5) * stride_mask`: anchor center y. -/
def anchorCy (a : Anchor) : ℚ := (a.gy + 1 / 2) * a.stride

/-- One ground-truth row `< collate_id, cid, (abs)xyxy >`. -/
structure Tgt where
  img : ℕ
  cid : ℕ
  box : Box
deriving DecidableEq, Inhabited

/-- One prediction row: decoded box (channels 0..3) and the remaining
score logits (channels 4..), read by `paired[..., 4:]`. -/
structure Pred where
  box : Box
  scores : List ℚ
deriving DecidableEq, Inhabited

/-! ## center_sampling -/

/-- `bbox_deltas.min(dim=-1).values > 0.0` for one (target, anchor) pair:
the four signed distances from the anchor center to the box edges. -/
def inBoxB (t : Tgt) (an : Anchor) : Bool :=
  let bl := anchorCx an - t.box.x1
  let bt := anchorCy an - t.box.y1
  let br := t.box.x2 - anchorCx an
  let bb := t.box.y2 - anchorCy an
  decide (0 < min (min (min bl bt) br) bb)

/-- `center_deltas.max(dim=-1).values < center_radius * stride_mask`
for one (target, anchor) pair, `center_radius = 2.5`. -/
def inCenterB (t : Tgt) (an : Anchor) : Bool :=
  let cx := |anchorCx an - (t.box.x1 + t.box.x2) / 2|
  let cy := |anchorCy an - (t.box.y1 + t.box.y2) / 2|
  decide (max cx cy < 5 / 2 * an.stride)

/-- Modelled from the spec's wording (for comparison with the code-derived
`inBoxB`): all four signed distances from the anchor center to the target's
box edges are strictly positive. -/
def SpecInsideBox (t : Tgt) (an : Anchor) : Prop :=
  0 < anchorCx an - t.box.x1 ∧ 0 < anchorCy an - t.box.y1 ∧
    0 < t.box.x2 - anchorCx an ∧ 0 < t.box.y2 - anchorCy an

/-- Modelled from the spec's wording (for comparison with the code-derived
`inCenterB`): the anchor center lies within a square window of half-width
`2.5 × stride` centered on the target's box center. -/
def SpecInsideCenter (t : Tgt) (an : Anchor) : Prop :=
  |anchorCx an - (t.box.x1 + t.box.x2) / 2| < 5 / 2 * an.stride ∧
    |anchorCy an - (t.box.y1 + t.box.y2) / 2| < 5 / 2 * an.stride

/-- `is_in_boxes_anchor = is_in_boxes_all | is_in_centers_all` for one anchor:
inside some target's box, or inside some target's center window. -/
def isInBoxesAnchor (ts : List Tgt) (an : Anchor) : Bool :=
  ts.any (fun t => inBoxB t an) || ts.any (fun t => inCenterB t an)

/-- The geometrically eligible (prediction, anchor) pairs of one image, in
anchor order: boolean-mask indexing `input[in_box]` kept together with the
anchor that produced each retained column. -/
def eligPairs (ts : List Tgt) (preds : List Pred) (ans : List Anchor) :
    List (Pred × Anchor) :=
  (preds.zip ans).filter (fun pa => isInBoxesAnchor ts pa.2)

/-- `paired = input[in_box]`. -/
def eligPreds (ts : List Tgt) (preds : List Pred) (ans : List Anchor) : List Pred :=
  (eligPairs ts preds ans).map Prod.fst

/-- `is_in_boxes[:, is_in_boxes_anchor] & is_in_centers[:, is_in_boxes_anchor]`:
the T × (eligible count) matrix (column filtering of the two full T × A
matrices commutes with the pointwise conjunction). -/
def inBoxCenterMatrix (ts : List Tgt) (preds : List Pred) (ans : List Anchor) :
    List (List Bool) :=
  ts.map (fun t => (eligPairs ts preds ans).map
    (fun pa => inBoxB t pa.2 && inCenterB t pa.2))

/-- Entry accessor for a boolean matrix held as a list of rows. -/
def bEntry (m : List (List Bool)) (t p : ℕ) : Bool := (m.getD t []).getD p false

/-- Entry accessor for a rational matrix held as a list of rows. -/
def qEntry (m : List (List ℚ)) (t p : ℕ) : ℚ := (m.getD t []).getD p 0

/-! ## Selection order of the top-k / argmin primitives

`torch.topk(v, k, largest=False)` picks the k smallest entries, lower index
first on equal values; `largest=True` symmetrically.  `ltIdx v i j` says
index `i` is served strictly before index `j` in ascending order, `gtIdx`
in descending order; `rnk r n i` counts the indices of `Finset.range n`
served before `i`, so the selected set is exactly `{i | rnk r n i < k}`. -/

/-- Ascending (value, index) lexicographic order. -/
def ltIdx (v : ℕ → ℚ) (i j : ℕ) : Prop := v i < v j ∨ (v i = v j ∧ i < j)

/-- Descending (value) order, still lower index first on ties. -/
def gtIdx (v : ℕ → ℚ) (i j : ℕ) : Prop := v j < v i ∨ (v i = v j ∧ i < j)

instance (v : ℕ → ℚ) : DecidableRel (ltIdx v) := fun i j =>
  if h1 : v i < v j then isTrue (Or.inl h1)
  else if h2 : v j < v i then
    isFalse (by
      rintro (h | ⟨he, _⟩)
      · exact h1 h
      · exact absurd h2 (he ▸ lt_irrefl (v i)))
  else if h3 : i < j then
    isTrue (Or.inr ⟨le_antisymm (not_lt.mp h2) (not_lt.mp h1), h3⟩)
  else
    isFalse (by
      rintro (h | ⟨_, hij⟩)
      · exact h1 h
      · exact h3 hij)

instance (v : ℕ → ℚ) : DecidableRel (gtIdx v) := fun i j =>
  if h1 : v j < v i then isTrue (Or.inl h1)
  else if h2 : v i < v j then
    isFalse (by
      rintro (h | ⟨he, _⟩)
      · exact h1 h
      · exact absurd h2 (he ▸ lt_irrefl (v i)))
  else if h3 : i < j then
    isTrue (Or.inr ⟨le_antisymm (not_lt.mp h1) (not_lt.mp h2), h3⟩)
  else
    isFalse (by
      rintro (h | ⟨_, hij⟩)
      · exact h1 h
      · exact h3 hij)

/-- Number of indices below `n` served strictly before `i` by the order `r`. -/
def rnk (r : ℕ → ℕ → Prop) [DecidableRel r] (n i : ℕ) : ℕ :=
  ((Finset.range n).filter (fun j => r j i)).card

/-- Sum of the `k` largest entries of `row` (what
`torch.topk(pair_wise_iou, k, dim=1)[0].sum(1)` computes for one row). -/
def topkSumLargest (row : List ℚ) (k : ℕ) : ℚ :=
  ((Finset.range row.length).filter
      (fun i => rnk (gtIdx (fun j => row.getD j 0)) row.length i < k)).sum
    (fun i => row.getD i 0)


/-- `.int()` truncation toward zero of a rational. -/
def ratTruncZ (q : ℚ) : ℤ := if 0 ≤ q then ⌊q⌋ else ⌈q⌉

/-- `torch.clamp(topk_ious.sum(1).int(), min=1)` for one target row:
its dynamic k. -/
def dynK (iouRow : List ℚ) (nck : ℕ) : ℕ :=
  (max 1 (ratTruncZ (topkSumLargest iouRow nck))).toNat

/-! ## dynamic_topk -/

/-- `one_hot(cid, num_classes)` as a rational vector. -/
def oneHot (c C : ℕ) : List ℚ := (List.range C).map (fun j => if j = c then 1 else 0)

/-- `binary_cross_entropy(probs, y, reduction="none").sum(-1)` for one
(target, candidate) pair; `rlog` stands for the (internally clamped)
logarithm used by the kernel. -/
def bceRow (rlog : ℚ → ℚ) (probs y : List ℚ) : ℚ :=
  ((probs.zip y).map (fun z => -(z.2 * rlog z.1 + (1 - z.2) * rlog (1 - z.1)))).sum

/-- `pair_wise_iou = box_iou(target[..., 2:], paired[..., :4])`. -/
def pairIouM (tgts : List Tgt) (paired : List Pred) : List (List ℚ) :=
  tgts.map (fun t => paired.map (fun p => boxIou t.box p.box))

/-- `pair_wise_iou_loss = -log(pair_wise_iou + 1e-8)`. -/
def iouLossM (rlog : ℚ → ℚ) (iouM : List (List ℚ)) : List (List ℚ) :=
  iouM.map (fun r => r.map (fun x => -(rlog (x + 1 / 100000000))))

/-- `pair_wise_cls_loss`: BCE between the broadcast sigmoid scores and the
broadcast one-hot class targets, summed over the class axis. -/
def clsCostM (rlog sigm : ℚ → ℚ) (C : ℕ) (tgts : List Tgt) (paired : List Pred) :
    List (List ℚ) :=
  tgts.map (fun t => paired.map
    (fun p => bceRow rlog (p.scores.map sigm) (oneHot t.cid C)))

/-- `~in_box_center` as a 0/1 matrix. -/
def penaltyM (inBC : List (List Bool)) : List (List ℚ) :=
  inBC.map (fun r => r.map (fun b => if b then 0 else 1))

/-- Elementwise sum of two matrices. -/
def addM (a b : List (List ℚ)) : List (List ℚ) :=
  a.zipWith (fun ra rb => ra.zipWith (· + ·) rb) b

/-- Scalar multiple of a matrix. -/
def smulM (c : ℚ) (a : List (List ℚ)) : List (List ℚ) :=
  a.map (fun r => r.map (fun x => c * x))

/-- `cost = pair_wise_cls_loss + 3.0 * pair_wise_iou_loss
           + 100000.0 * (~in_box_center)`. -/
def costM (rlog sigm : ℚ → ℚ) (C : ℕ) (tgts : List Tgt) (paired : List Pred)
    (inBC : List (List Bool)) : List (List ℚ) :=
  addM (addM (clsCostM rlog sigm C tgts paired)
      (smulM 3 (iouLossM rlog (pairIouM tgts paired))))
    (smulM 100000 (penaltyM inBC))

/-- `dynamic_ks` as a list over targets (`n_candidate_k = min(10, P)`). -/
def dynKs (tgts : List Tgt) (paired : List Pred) : List ℕ :=
  (List.range tgts.length).map
    (fun t => dynK ((pairIouM tgts paired).getD t []) (min 10 paired.length))

/-- The matching matrix right after the per-target top-k loop:
row `t` marks exactly the `dynamic_ks[t]` candidates of lowest cost,
lower index first on ties. -/
def preMat (cost : List (List ℚ)) (ks : List ℕ) (t p : ℕ) : Bool :=
  decide (rnk (ltIdx (fun j => (cost.getD t []).getD j 0))
    (cost.getD t []).length p < ks.getD t 0)

/-- `matching_matrix.sum(0)` restricted to column `p`. -/
def colSumB (m : ℕ → ℕ → Bool) (T p : ℕ) : ℕ :=
  ((Finset.range T).filter (fun t => m t p = true)).card

/-- The first index below `n` minimizing `v` (`torch.min(_, dim=0)`):
the unique index of ascending rank zero. -/
def firstArgmin (v : ℕ → ℚ) (n : ℕ) : ℕ :=
  (((List.range n).find? (fun t => decide (rnk (ltIdx v) n t = 0)))).getD 0

/-- The conflict-resolution pass: a column claimed by more than one target is
cleared and re-marked at the single row of minimal cost in that column. -/
def postMat (cost : List (List ℚ)) (m : ℕ → ℕ → Bool) (T : ℕ) : ℕ → ℕ → Bool :=
  fun t p =>
    if 1 < colSumB m T p then decide (t = firstArgmin (fun s => qEntry cost s p) T)
    else m t p

/-- First row marking column `p` (`matching_matrix[:, mp].argmax(0)` on a
0/1 column whose sum is ≤ 1 returns the first — hence the unique — mark). -/
def colArgmaxB (m : ℕ → ℕ → Bool) (T p : ℕ) : ℕ :=
  ((List.range T).find? (fun t => m t p)).getD 0

/-- `pair_wise_iou.max(0).values` at one column (meaningful for `T ≥ 1`). -/
def colMaxQ (v : ℕ → ℚ) (T : ℕ) : ℚ :=
  ((List.range T).map v).foldl max (v 0)

/-- The resolved matching matrix of `dynamic_topk`. -/
def finalMat (rlog sigm : ℚ → ℚ) (C : ℕ) (tgts : List Tgt) (paired : List Pred)
    (inBC : List (List Bool)) : ℕ → ℕ → Bool :=
  postMat (costM rlog sigm C tgts paired inBC)
    (preMat (costM rlog sigm C tgts paired inBC) (dynKs tgts paired)) tgts.length

/-- Result triple of `dynamic_topk`, plus the diagnostic mean it writes
into `self.max_topk`. -/
structure TopkOut where
  mp : List Bool
  tp : List ℕ
  pIou : List ℚ
  meanK : ℚ
deriving DecidableEq

/-- `dynamic_topk`.  Returns `none` when the source would raise: a class id
out of range for `one_hot`, or a per-target `torch.topk` asked for more
candidates than exist (`dynamic_ks[t] > P`, in particular whenever
`P = 0` and there is at least one target, since the clamp forces k = 1). -/
def dynamicTopk (rlog sigm : ℚ → ℚ) (C : ℕ) (tgts : List Tgt)
    (paired : List Pred) (inBC : List (List Bool)) : Option TopkOut :=
  let T := tgts.length
  let P := paired.length
  let ks := dynKs tgts paired
  if tgts.all (fun t => decide (t.cid < C))
      && (List.range T).all (fun t => decide (ks.getD t 0 ≤ P)) then
    let fin := finalMat rlog sigm C tgts paired inBC
    some
      { mp := (List.range P).map (fun p => decide (0 < colSumB fin T p))
        tp := ((List.range P).filter (fun p => decide (0 < colSumB fin T p))).map
          (fun p => colArgmaxB fin T p)
        pIou := (List.range P).map
          (fun p => colMaxQ (fun t => qEntry (pairIouM tgts paired) t p) T)
        meanK := (((List.range T).map
          (fun t => topkSumLargest ((pairIouM tgts paired).getD t [])
            (min 10 P))).sum) / T }
  else
    none

/-! ## assign_batch -/

/-- Per-image outputs: match mask (A), box targets (matched count),
objectness / quality targets (A), class targets (A).  Class targets hold
natural numbers (a class id or the value written by the source, which uses
a float tensor for them). -/
structure ImageOut where
  mask : List Bool
  boxT : List Box
  objT : List ℚ
  clsT : List ℕ
deriving DecidableEq, Inhabited

/-- Number of `true` entries of `m` strictly before position `a`: the
position that boolean-mask indexing (`x[mask]`) gives to element `a`. -/
def maskPos (m : List Bool) (a : ℕ) : ℕ := ((m.take a).filter id).length

/-- `m = in_box.clone(); m[in_box] = mp`: anchor-level match mask. -/
def scatterMask (em : List Bool) (mp : List Bool) : List Bool :=
  (List.range em.length).map (fun a => em.getD a false && mp.getD (maskPos em a) false)

/-- One image of `assign_batch`, stateless output part.  With no targets the
source takes the early branch (all-false mask, empty boxes, zero quality,
and — as written, `new_zeros` — class target 0 everywhere); otherwise it
runs `center_sampling` and `dynamic_topk` and scatters their results back
to anchor indexing. -/
def assignImage (rlog sigm : ℚ → ℚ) (C : ℕ) (ans : List Anchor)
    (preds : List Pred) (tgts : List Tgt) : Option ImageOut :=
  if tgts.isEmpty then
    some
      { mask := List.replicate preds.length false
        boxT := []
        objT := List.replicate preds.length 0
        clsT := List.replicate preds.length 0 }
  else
    let em := ans.map (isInBoxesAnchor tgts)
    match dynamicTopk rlog sigm C tgts (eligPreds tgts preds ans)
        (inBoxCenterMatrix tgts preds ans) with
    | none => none
    | some r =>
      let m := scatterMask em r.mp
      some
        { mask := m
          boxT := r.tp.map (fun t => (tgts.getD t default).box)
          objT := (List.range preds.length).map
            (fun a => if m.getD a false then r.pIou.getD (maskPos em a) 0 else 0)
          clsT := (List.range preds.length).map
            (fun a => if m.getD a false
              then (tgts.getD (r.tp.getD (maskPos m a) 0) default).cid
              else C) }

/-- One image of `assign_batch` with the `self.max_topk` state threaded:
the no-target branch leaves the state alone, the main branch overwrites it
with the mean recorded by `dynamic_topk`. -/
def assignImageS (rlog sigm : ℚ → ℚ) (C : ℕ) (ans : List Anchor)
    (preds : List Pred) (tgts : List Tgt) (s : ℚ) : Option (ImageOut × ℚ) :=
  if tgts.isEmpty then
    some
      ({ mask := List.replicate preds.length false
         boxT := []
         objT := List.replicate preds.length 0
         clsT := List.replicate preds.length 0 }, s)
  else
    let em := ans.map (isInBoxesAnchor tgts)
    match dynamicTopk rlog sigm C tgts (eligPreds tgts preds ans)
        (inBoxCenterMatrix tgts preds ans) with
    | none => none
    | some r =>
      let m := scatterMask em r.mp
      some
        ({ mask := m
           boxT := r.tp.map (fun t => (tgts.getD t default).box)
           objT := (List.range preds.length).map
             (fun a => if m.getD a false then r.pIou.getD (maskPos em a) 0 else 0)
           clsT := (List.range preds.length).map
             (fun a => if m.getD a false
               then (tgts.getD (r.tp.getD (maskPos m a) 0) default).cid
               else C) }, r.meanK)

/-- Batch-level outputs, each the image-order concatenation (`torch.cat`)
of the per-image pieces. -/
structure BatchOut where
  mask : List Bool
  boxT : List Box
  objT : List ℚ
  clsT : List ℕ
deriving DecidableEq, Inhabited

/-- `for bi in range(batch_size)` of `assign_batch`: process the images in
index order, filtering `target[:, 0] == bi`, threading `self.max_topk`. -/
def assignImagesGo (rlog sigm : ℚ → ℚ) (C : ℕ) (ans : List Anchor)
    (targets : List Tgt) :
    List (List Pred) → ℕ → ℚ → Option (List ImageOut × ℚ)
  | [], _, s => some ([], s)
  | preds :: rest, bi, s =>
    match assignImageS rlog sigm C ans preds
        (targets.filter (fun t => t.img = bi)) s with
    | none => none
    | some (o, s1) =>
      match assignImagesGo rlog sigm C ans targets rest (bi + 1) s1 with
      | none => none
      | some (os, s2) => some (o :: os, s2)

/-- The four `torch.cat(_, 0)` calls closing `assign_batch`. -/
def collectOuts (os : List ImageOut) : BatchOut :=
  { mask := (os.map ImageOut.mask).flatten
    boxT := (os.map ImageOut.boxT).flatten
    objT := (os.map ImageOut.objT).flatten
    clsT := (os.map ImageOut.clsT).flatten }

/-- `assign_batch` with the `self.max_topk` state explicit. -/
def assignBatchS (rlog sigm : ℚ → ℚ) (C : ℕ) (ans : List Anchor)
    (predsB : List (List Pred)) (targets : List Tgt) (s : ℚ) :
    Option (BatchOut × ℚ) :=
  (assignImagesGo rlog sigm C ans targets predsB 0 s).map
    (fun z => (collectOuts z.1, z.2))

/-- `assign_batch` outputs (`self.max_topk` starts at the constructor
value 1 and is never read back by the computation). -/
def assignBatch (rlog sigm : ℚ → ℚ) (C : ℕ) (ans : List Anchor)
    (predsB : List (List Pred)) (targets : List Tgt) : Option BatchOut :=
  (assignBatchS rlog sigm C ans predsB targets 1).map Prod.fst

/-! ## Order and rank lemmas for the top-k model -/

theorem ltIdx_trans (v : ℕ → ℚ) : Transitive (ltIdx v) := by
  rintro i j k (h | ⟨he, hi⟩) (h' | ⟨he', hi'⟩)
  · exact Or.inl (lt_trans h h')
  · exact Or.inl (he' ▸ h)
  · exact Or.inl (he ▸ h')
  · exact Or.inr ⟨he.trans he', lt_trans hi hi'⟩

theorem ltIdx_irrefl (v : ℕ → ℚ) : Irreflexive (ltIdx v) := by
  rintro i (h | ⟨_, hi⟩)
  · exact lt_irrefl _ h
  · exact lt_irrefl _ hi

theorem ltIdx_total (v : ℕ → ℚ) {i j : ℕ} (h : i ≠ j) :
    ltIdx v i j ∨ ltIdx v j i := by
  rcases lt_trichotomy (v i) (v j) with hv | hv | hv
  · exact Or.inl (Or.inl hv)
  · rcases Nat.lt_or_ge i j with hij | hij
    · exact Or.inl (Or.inr ⟨hv, hij⟩)
    · exact Or.inr (Or.inr ⟨hv.symm, lt_of_le_of_ne hij (Ne.symm h)⟩)
  · exact Or.inr (Or.inl hv)

theorem gtIdx_trans (v : ℕ → ℚ) : Transitive (gtIdx v) := by
  rintro i j k (h | ⟨he, hi⟩) (h' | ⟨he', hi'⟩)
  · exact Or.inl (lt_trans h' h)
  · exact Or.inl (he' ▸ h)
  · exact Or.inl (he ▸ h')
  · exact Or.inr ⟨he.trans he', lt_trans hi hi'⟩

theorem gtIdx_irrefl (v : ℕ → ℚ) : Irreflexive (gtIdx v) := by
  rintro i (h | ⟨_, hi⟩)
  · exact lt_irrefl _ h
  · exact lt_irrefl _ hi

theorem gtIdx_total (v : ℕ → ℚ) {i j : ℕ} (h : i ≠ j) :
    gtIdx v i j ∨ gtIdx v j i := by
  rcases lt_trichotomy (v i) (v j) with hv | hv | hv
  · exact Or.inr (Or.inl hv)
  · rcases Nat.lt_or_ge i j with hij | hij
    · exact Or.inl (Or.inr ⟨hv, hij⟩)
    · exact Or.inr (Or.inr ⟨hv.symm, lt_of_le_of_ne hij (Ne.symm h)⟩)
  · exact Or.inl (Or.inl hv)

section RankLemmas

variable {r : ℕ → ℕ → Prop} [DecidableRel r]

theorem rnk_lt_rnk (htr : Transitive r) (hirr : Irreflexive r) {n i j : ℕ}
    (hi : i < n) (hr : r i j) : rnk r n i < rnk r n j := by
  apply Finset.card_lt_card
  rw [Finset.ssubset_iff_of_subset]
  · refine ⟨i, by simp [hi, hr], by simp [hirr i]⟩
  · intro m hm
    simp only [Finset.mem_filter, Finset.mem_range] at hm ⊢
    exact ⟨hm.1, htr hm.2 hr⟩

theorem rnk_lt_n (hirr : Irreflexive r) {n i : ℕ} (hi : i < n) : rnk r n i < n := by
  have h := Finset.card_lt_card (s := (Finset.range n).filter (fun j => r j i))
    (t := Finset.range n) ?_
  · simpa using h
  · rw [Finset.ssubset_iff_of_subset (Finset.filter_subset _ _)]
    exact ⟨i, Finset.mem_range.mpr hi, by simp [hirr i]⟩

theorem rnk_injOn (htr : Transitive r) (hirr : Irreflexive r)
    (htot : ∀ i j, i ≠ j → r i j ∨ r j i) {n i j : ℕ}
    (hi : i < n) (hj : j < n) (h : rnk r n i = rnk r n j) : i = j := by
  by_contra hne
  rcases htot i j hne with hr | hr
  · exact absurd h (Nat.ne_of_lt (rnk_lt_rnk htr hirr hi hr))
  · exact absurd h.symm (Nat.ne_of_lt (rnk_lt_rnk htr hirr hj hr))

theorem rnk_image (htr : Transitive r) (hirr : Irreflexive r)
    (htot : ∀ i j, i ≠ j → r i j ∨ r j i) (n : ℕ) :
    (Finset.range n).image (rnk r n) = Finset.range n := by
  apply Finset.eq_of_subset_of_card_le
  · intro m hm
    rcases Finset.mem_image.mp hm with ⟨i, hi, hio⟩
    exact Finset.mem_range.mpr (hio ▸ rnk_lt_n hirr (Finset.mem_range.mp hi))
  · rw [Finset.card_image_of_injOn, Finset.card_range]
    intro i hi j hj h
    exact rnk_injOn htr hirr htot (Finset.mem_range.mp hi) (Finset.mem_range.mp hj) h

theorem rnk_card (htr : Transitive r) (hirr : Irreflexive r)
    (htot : ∀ i j, i ≠ j → r i j ∨ r j i) (n k : ℕ) :
    ((Finset.range n).filter (fun i => rnk r n i < k)).card = min k n := by
  have hinj : Set.InjOn (rnk r n) (Finset.range n) := fun i hi j hj h =>
    rnk_injOn htr hirr htot (Finset.mem_range.mp hi) (Finset.mem_range.mp hj) h
  have h1 : ((Finset.range n).filter (fun i => rnk r n i < k)).card
      = (((Finset.range n).filter (fun i => rnk r n i < k)).image (rnk r n)).card := by
    rw [Finset.card_image_of_injOn (Set.InjOn.mono ?_ hinj)]
    intro x hx
    exact Finset.mem_coe.mpr (Finset.mem_of_mem_filter x (Finset.mem_coe.mp hx))
  have h2 : ((Finset.range n).filter (fun i => rnk r n i < k)).image (rnk r n)
      = (Finset.range n).filter (fun m => m < k) := by
    ext m
    simp only [Finset.mem_image, Finset.mem_filter, Finset.mem_range]
    constructor
    · rintro ⟨i, ⟨hi, hk⟩, hio⟩
      exact ⟨hio ▸ rnk_lt_n hirr hi, hio ▸ hk⟩
    · intro ⟨hm, hk⟩
      have := rnk_image htr hirr htot n
      have hmem : m ∈ (Finset.range n).image (rnk r n) := by
        rw [this]; exact Finset.mem_range.mpr hm
      rcases Finset.mem_image.mp hmem with ⟨i, hi, hio⟩
      exact ⟨i, ⟨Finset.mem_range.mp hi, hio ▸ hk⟩, hio⟩
  have h3 : (Finset.range n).filter (fun m => m < k) = Finset.range (min k n) := by
    ext m
    simp only [Finset.mem_filter, Finset.mem_range, Nat.lt_min]
    omega
  rw [h1, h2, h3, Finset.card_range]

theorem rnk_served_first (htr : Transitive r) (hirr : Irreflexive r)
    (htot : ∀ i j, i ≠ j → r i j ∨ r j i) {n k p q : ℕ}
    (hq : q < n) (h1 : rnk r n p < k) (h2 : ¬ rnk r n q < k) : r p q := by
  have hne : p ≠ q := fun h => h2 (h ▸ h1)
  rcases htot p q hne with h | h
  · exact h
  · exact absurd (lt_trans (rnk_lt_rnk htr hirr hq h) h1) h2

end RankLemmas

/-! ## IoU bounds -/

theorem boxInter_nonneg (a b : Box) : 0 ≤ boxInter a b :=
  mul_nonneg (le_max_right _ 0) (le_max_right _ 0)

theorem boxInter_le_left {a : Box} (b : Box) (ha : a.valid) :
    boxInter a b ≤ boxArea a := by
  rcases ha with ⟨hx, hy⟩
  have h1 : max (min a.x2 b.x2 - max a.x1 b.x1) 0 ≤ a.x2 - a.x1 :=
    max_le (by
      have := min_le_left a.x2 b.x2
      have := le_max_left a.x1 b.x1
      linarith) (by linarith)
  have h2 : max (min a.y2 b.y2 - max a.y1 b.y1) 0 ≤ a.y2 - a.y1 :=
    max_le (by
      have := min_le_left a.y2 b.y2
      have := le_max_left a.y1 b.y1
      linarith) (by linarith)
  exact mul_le_mul h1 h2 (le_max_right _ 0) (by linarith)

theorem boxInter_le_right (a : Box) {b : Box} (hb : b.valid) :
    boxInter a b ≤ boxArea b := by
  rcases hb with ⟨hx, hy⟩
  have h1 : max (min a.x2 b.x2 - max a.x1 b.x1) 0 ≤ b.x2 - b.x1 :=
    max_le (by
      have := min_le_right a.x2 b.x2
      have := le_max_right a.x1 b.x1
      linarith) (by linarith)
  have h2 : max (min a.y2 b.y2 - max a.y1 b.y1) 0 ≤ b.y2 - b.y1 :=
    max_le (by
      have := min_le_right a.y2 b.y2
      have := le_max_right a.y1 b.y1
      linarith) (by linarith)
  exact mul_le_mul h1 h2 (le_max_right _ 0) (by linarith)

/-- With a positive-area first box and a well-formed second box, the IoU of
`box_iou` lies in `[0, 1]`. -/
theorem boxIou_bounds {a b : Box} (ha : a.posArea) (hb : b.valid) :
    0 ≤ boxIou a b ∧ boxIou a b ≤ 1 := by
  have hav : a.valid := ⟨le_of_lt ha.1, le_of_lt ha.2⟩
  have hA : 0 < boxArea a := mul_pos (by rcases ha with ⟨h, _⟩; linarith)
    (by rcases ha with ⟨_, h⟩; linarith)
  have hi0 := boxInter_nonneg a b
  have hib := boxInter_le_right a hb
  have hia := boxInter_le_left b hav
  have hu : 0 < boxArea a + boxArea b - boxInter a b := by linarith
  constructor
  · exact div_nonneg hi0 (le_of_lt hu)
  · rw [boxIou, div_le_one hu]
    linarith

/-! ## Dynamic-k bounds -/

theorem topkSumLargest_nonneg (row : List ℚ) (k : ℕ)
    (h0 : ∀ x ∈ row, 0 ≤ x) : 0 ≤ topkSumLargest row k := by
  apply Finset.sum_nonneg
  intro i hi
  rcases Finset.mem_range.mp (Finset.mem_of_mem_filter i hi) with hilt
  have : row.getD i 0 ∈ row := by
    rw [List.getD_eq_getElem row 0 hilt]
    exact List.getElem_mem _
  exact h0 _ this

theorem topkSumLargest_le (row : List ℚ) (k : ℕ)
    (h1 : ∀ x ∈ row, x ≤ 1) : topkSumLargest row k ≤ (min k row.length : ℕ) := by
  have hcard : ((Finset.range row.length).filter
      (fun i => rnk (gtIdx (fun j => row.getD j 0)) row.length i < k)).card
      = min k row.length :=
    rnk_card (gtIdx_trans _) (gtIdx_irrefl _) (fun _ _ h => gtIdx_total _ h) _ _
  calc topkSumLargest row k
      ≤ ((Finset.range row.length).filter
          (fun i => rnk (gtIdx (fun j => row.getD j 0)) row.length i < k)).card • (1 : ℚ) := by
        apply Finset.sum_le_card_nsmul
        intro i hi
        rcases Finset.mem_range.mp (Finset.mem_of_mem_filter i hi) with hilt
        have : row.getD i 0 ∈ row := by
          rw [List.getD_eq_getElem row 0 hilt]
          exact List.getElem_mem _
        exact h1 _ this
    _ = (min k row.length : ℕ) := by rw [hcard]; simp

theorem dynK_pos (row : List ℚ) (nck : ℕ) : 1 ≤ dynK row nck := by
  unfold dynK
  have : (1 : ℤ) ≤ max 1 (ratTruncZ (topkSumLargest row nck)) := le_max_left _ _
  omega

theorem dynK_le (row : List ℚ) {nck : ℕ} (hn : 1 ≤ nck)
    (h0 : ∀ x ∈ row, 0 ≤ x) (h1 : ∀ x ∈ row, x ≤ 1) : dynK row nck ≤ nck := by
  unfold dynK
  have hs0 : 0 ≤ topkSumLargest row nck := topkSumLargest_nonneg row nck h0
  have hsle : topkSumLargest row nck ≤ (nck : ℚ) :=
    le_trans (topkSumLargest_le row nck h1) (by
      have := Nat.min_le_left nck row.length
      exact_mod_cast Nat.cast_le.mpr this)
  have htr : ratTruncZ (topkSumLargest row nck) = ⌊topkSumLargest row nck⌋ := by
    unfold ratTruncZ
    exact if_pos hs0
  have hfl : ⌊topkSumLargest row nck⌋ ≤ (nck : ℤ) := by
    rw [Int.floor_le_iff]
    push_cast
    linarith
  have : max 1 (ratTruncZ (topkSumLargest row nck)) ≤ (nck : ℤ) := by
    rw [htr]
    exact max_le (by exact_mod_cast hn) hfl
  omega

/-! ## Structure of the cost matrix -/

theorem zipWith_map_same {α β γ δ : Type _} (f : β → γ → δ) (g : α → β) (h : α → γ)
    (l : List α) :
    List.zipWith f (l.map g) (l.map h) = l.map (fun x => f (g x) (h x)) := by
  induction l with
  | nil => rfl
  | cons a l ih => simp [ih]

/-- Row `t` of the cost matrix built over the eligible candidates, fused
into a single map over the eligible (prediction, anchor) pairs. -/
theorem costM_row (rlog sigm : ℚ → ℚ) (C : ℕ) (ts : List Tgt) (preds : List Pred)
    (ans : List Anchor) {t : ℕ} (ht : t < ts.length) :
    (costM rlog sigm C ts (eligPreds ts preds ans)
        (inBoxCenterMatrix ts preds ans)).getD t []
      = (eligPairs ts preds ans).map (fun pa =>
          bceRow rlog (pa.1.scores.map sigm) (oneHot (ts.getD t default).cid C)
            + 3 * -(rlog (boxIou (ts.getD t default).box pa.1.box + 1 / 100000000))
            + 100000 * (if inBoxB (ts.getD t default) pa.2
                && inCenterB (ts.getD t default) pa.2 then 0 else 1)) := by
  unfold costM addM smulM clsCostM iouLossM pairIouM penaltyM inBoxCenterMatrix eligPreds
  simp only [List.map_map, Function.comp_def, zipWith_map_same]
  rw [List.getD_eq_getElem _ _ (by simpa using ht), List.getElem_map,
    List.getD_eq_getElem _ _ ht]

theorem getD_map {α β : Type _} (f : α → β) (l : List α) {i : ℕ}
    (hi : i < l.length) (d : α) (d' : β) :
    (l.map f).getD i d' = f (l.getD i d) := by
  rw [List.getD_eq_getElem (l.map f) d' (by simpa using hi), List.getElem_map,
    List.getD_eq_getElem l d hi]

theorem inBoxCenterMatrix_entry (ts : List Tgt) (preds : List Pred)
    (ans : List Anchor) {t p : ℕ} (ht : t < ts.length)
    (hp : p < (eligPairs ts preds ans).length) :
    bEntry (inBoxCenterMatrix ts preds ans) t p
      = (inBoxB (ts.getD t default) ((eligPairs ts preds ans).getD p default).2
        && inCenterB (ts.getD t default) ((eligPairs ts preds ans).getD p default).2) := by
  unfold bEntry inBoxCenterMatrix
  rw [getD_map _ ts ht default, getD_map _ (eligPairs ts preds ans) hp default]

/-- C6: for every (target, eligible-candidate) pair, the cost-matrix entry
equals the class-wise BCE between the target's one-hot class vector and the
candidate's sigmoid scores, plus `3.0 * -log(pairwise IoU + 1e-8)`, plus
`1e5` exactly when the pair fails the inside-box-and-center test.  (In this
rational model with an abstract `rlog` the entry is a rational — finite —
for every IoU value, including IoU = 0, where the logarithm argument is the
epsilon `1e-8` itself.) -/
theorem cost_entry_formula (rlog sigm : ℚ → ℚ) (C : ℕ) (ts : List Tgt)
    (preds : List Pred) (ans : List Anchor) {t p : ℕ} (ht : t < ts.length)
    (hp : p < (eligPairs ts preds ans).length) :
    qEntry (costM rlog sigm C ts (eligPreds ts preds ans)
        (inBoxCenterMatrix ts preds ans)) t p
      = bceRow rlog (((eligPreds ts preds ans).getD p default).scores.map sigm)
          (oneHot (ts.getD t default).cid C)
        + 3 * -(rlog (boxIou (ts.getD t default).box
            ((eligPreds ts preds ans).getD p default).box + 1 / 100000000))
        + (if bEntry (inBoxCenterMatrix ts preds ans) t p then 0 else 100000) := by
  unfold qEntry
  rw [costM_row rlog sigm C ts preds ans ht,
    getD_map _ (eligPairs ts preds ans) hp default,
    inBoxCenterMatrix_entry ts preds ans ht hp]
  have he : (eligPreds ts preds ans).getD p default
      = ((eligPairs ts preds ans).getD p default).1 := by
    unfold eligPreds
    rw [getD_map _ (eligPairs ts preds ans) hp default]
  rw [he]
  by_cases hb : (inBoxB (ts.getD t default) ((eligPairs ts preds ans).getD p default).2
      && inCenterB (ts.getD t default) ((eligPairs ts preds ans).getD p default).2) = true
  · simp [hb]
  · simp [eq_false_of_ne_true hb]

/-! ## Row structure of the matrices over eligible candidates -/

theorem getD_mem {α : Type _} (l : List α) {i : ℕ} (hi : i < l.length) (d : α) :
    l.getD i d ∈ l := by
  rw [List.getD_eq_getElem l d hi]
  exact List.getElem_mem _

theorem eligPreds_length (ts : List Tgt) (preds : List Pred) (ans : List Anchor) :
    (eligPreds ts preds ans).length = (eligPairs ts preds ans).length := by
  unfold eligPreds
  exact List.length_map _ _

theorem eligPreds_sub (ts : List Tgt) (preds : List Pred) (ans : List Anchor) :
    ∀ pr ∈ eligPreds ts preds ans, pr ∈ preds := by
  intro pr hpr
  rcases List.mem_map.mp hpr with ⟨pa, hpa, rfl⟩
  have hz := List.mem_of_mem_filter hpa
  exact (List.of_mem_zip hz).1

theorem costM_row_length (rlog sigm : ℚ → ℚ) (C : ℕ) (ts : List Tgt)
    (preds : List Pred) (ans : List Anchor) {t : ℕ} (ht : t < ts.length) :
    ((costM rlog sigm C ts (eligPreds ts preds ans)
        (inBoxCenterMatrix ts preds ans)).getD t []).length
      = (eligPreds ts preds ans).length := by
  rw [costM_row rlog sigm C ts preds ans ht, List.length_map, eligPreds_length]

theorem pairIouM_row (tgts : List Tgt) (paired : List Pred) {t : ℕ}
    (ht : t < tgts.length) :
    (pairIouM tgts paired).getD t []
      = paired.map (fun pr => boxIou (tgts.getD t default).box pr.box) := by
  unfold pairIouM
  rw [getD_map _ tgts ht default]

theorem iouRow_bounds (tgts : List Tgt) (paired : List Pred) {t : ℕ}
    (ht : t < tgts.length) (hT : ∀ tg ∈ tgts, tg.box.posArea)
    (hPr : ∀ pr ∈ paired, pr.box.valid) :
    (∀ x ∈ (pairIouM tgts paired).getD t [], 0 ≤ x)
    ∧ ∀ x ∈ (pairIouM tgts paired).getD t [], x ≤ 1 := by
  rw [pairIouM_row tgts paired ht]
  have hmem : (tgts.getD t default).box.posArea :=
    hT _ (getD_mem tgts ht default)
  constructor <;> intro x hx <;> rcases List.mem_map.mp hx with ⟨pr, hpr, rfl⟩
  · exact (boxIou_bounds hmem (hPr _ hpr)).1
  · exact (boxIou_bounds hmem (hPr _ hpr)).2

theorem dynKs_getD (tgts : List Tgt) (paired : List Pred) {t : ℕ}
    (ht : t < tgts.length) :
    (dynKs tgts paired).getD t 0
      = dynK ((pairIouM tgts paired).getD t []) (min 10 paired.length) := by
  unfold dynKs
  rw [getD_map _ (List.range tgts.length) (by simpa using ht) 0]
  have hr : (List.range tgts.length).getD t 0 = t := by
    rw [List.getD_eq_getElem (List.range tgts.length) 0 (by simpa using ht),
      List.getElem_range]
  rw [hr]

theorem dynKs_le_P (ts : List Tgt) (preds : List Pred)
    (ans : List Anchor) (hT : ∀ tg ∈ ts, tg.box.posArea)
    (hPr : ∀ pr ∈ preds, pr.box.valid)
    (hne : 1 ≤ (eligPairs ts preds ans).length) {t : ℕ} (ht : t < ts.length) :
    (dynKs ts (eligPreds ts preds ans)).getD t 0
      ≤ min 10 (eligPreds ts preds ans).length := by
  rw [dynKs_getD ts (eligPreds ts preds ans) ht]
  have hb := iouRow_bounds ts (eligPreds ts preds ans) ht hT
    (fun pr hpr => hPr pr (eligPreds_sub ts preds ans pr hpr))
  apply dynK_le _ _ hb.1 hb.2
  rw [eligPreds_length]
  omega

theorem dynamicTopk_isSome_iff (rlog sigm : ℚ → ℚ) (C : ℕ) (tgts : List Tgt)
    (paired : List Pred) (inBC : List (List Bool)) :
    (dynamicTopk rlog sigm C tgts paired inBC).isSome = true
      ↔ (∀ tg ∈ tgts, tg.cid < C)
        ∧ ∀ t < tgts.length, (dynKs tgts paired).getD t 0 ≤ paired.length := by
  unfold dynamicTopk
  by_cases hb : (tgts.all (fun t => decide (t.cid < C))
      && (List.range tgts.length).all
        (fun t => decide ((dynKs tgts paired).getD t 0 ≤ paired.length))) = true
  · rw [if_pos hb]
    simp only [Option.isSome_some, true_iff]
    rcases Bool.and_eq_true_iff.mp hb with ⟨h1, h2⟩
    constructor
    · intro tg htg
      have := List.all_eq_true.mp h1 tg htg
      exact of_decide_eq_true this
    · intro t htl
      have := List.all_eq_true.mp h2 t (List.mem_range.mpr htl)
      exact of_decide_eq_true this
  · rw [if_neg hb]
    simp only [Option.isSome_none, Bool.false_eq_true, false_iff]
    intro ⟨h1, h2⟩
    apply hb
    rw [Bool.and_eq_true_iff]
    constructor
    · exact List.all_eq_true.mpr (fun tg htg => decide_eq_true (h1 tg htg))
    · exact List.all_eq_true.mpr
        (fun t htl => decide_eq_true (h2 t (List.mem_range.mp htl)))

theorem preMat_entry_iff (rlog sigm : ℚ → ℚ) (C : ℕ) (ts : List Tgt)
    (preds : List Pred) (ans : List Anchor) {t : ℕ} (ht : t < ts.length) (p : ℕ) :
    preMat (costM rlog sigm C ts (eligPreds ts preds ans)
        (inBoxCenterMatrix ts preds ans)) (dynKs ts (eligPreds ts preds ans)) t p = true
      ↔ rnk (ltIdx (fun j => ((costM rlog sigm C ts (eligPreds ts preds ans)
            (inBoxCenterMatrix ts preds ans)).getD t []).getD j 0))
          (eligPreds ts preds ans).length p
        < (dynKs ts (eligPreds ts preds ans)).getD t 0 := by
  unfold preMat
  rw [costM_row_length rlog sigm C ts preds ans ht, decide_eq_true_eq]

theorem preMat_row_card (rlog sigm : ℚ → ℚ) (C : ℕ) (ts : List Tgt)
    (preds : List Pred) (ans : List Anchor) (hT : ∀ tg ∈ ts, tg.box.posArea)
    (hPr : ∀ pr ∈ preds, pr.box.valid)
    (hne : 1 ≤ (eligPairs ts preds ans).length) {t : ℕ} (ht : t < ts.length) :
    ((Finset.range (eligPreds ts preds ans).length).filter
        (fun p => preMat (costM rlog sigm C ts (eligPreds ts preds ans)
          (inBoxCenterMatrix ts preds ans))
          (dynKs ts (eligPreds ts preds ans)) t p = true)).card
      = (dynKs ts (eligPreds ts preds ans)).getD t 0 := by
  have hfil : (Finset.range (eligPreds ts preds ans).length).filter
      (fun p => preMat (costM rlog sigm C ts (eligPreds ts preds ans)
        (inBoxCenterMatrix ts preds ans))
        (dynKs ts (eligPreds ts preds ans)) t p = true)
      = (Finset.range (eligPreds ts preds ans).length).filter
        (fun p => rnk (ltIdx (fun j => ((costM rlog sigm C ts (eligPreds ts preds ans)
            (inBoxCenterMatrix ts preds ans)).getD t []).getD j 0))
          (eligPreds ts preds ans).length p
          < (dynKs ts (eligPreds ts preds ans)).getD t 0) := by
    apply Finset.filter_congr
    intro p _
    exact preMat_entry_iff rlog sigm C ts preds ans ht p
  rw [hfil, rnk_card (ltIdx_trans _) (ltIdx_irrefl _) (fun _ _ h => ltIdx_total _ h)]
  have hk := dynKs_le_P ts preds ans hT hPr hne ht
  have hmin : min 10 (eligPreds ts preds ans).length ≤ (eligPreds ts preds ans).length :=
    min_le_right _ _
  omega

/-- C5: for each target the dynamic k equals the truncated, clamped sum of
its top-`min(10, P)` IoU values — hence is ≥ 1 and ≤ `min(10, P)` — and the
pre-resolution matching row marks exactly k candidates, every marked
candidate preceding every unmarked one in the (cost, index) order that
breaks cost ties by lower index. -/
theorem dynamic_k_row_selection (rlog sigm : ℚ → ℚ) (C : ℕ) (ts : List Tgt)
    (preds : List Pred) (ans : List Anchor)
    (hT : ∀ tg ∈ ts, tg.box.posArea) (hPr : ∀ pr ∈ preds, pr.box.valid)
    (hne : 1 ≤ (eligPairs ts preds ans).length) {t : ℕ} (ht : t < ts.length) :
    (((dynKs ts (eligPreds ts preds ans)).getD t 0 : ℤ)
        = max 1 (ratTruncZ (topkSumLargest
            ((pairIouM ts (eligPreds ts preds ans)).getD t [])
            (min 10 (eligPreds ts preds ans).length)))
      ∧ 1 ≤ (dynKs ts (eligPreds ts preds ans)).getD t 0
      ∧ (dynKs ts (eligPreds ts preds ans)).getD t 0
          ≤ min 10 (eligPreds ts preds ans).length)
    ∧ ((Finset.range (eligPreds ts preds ans).length).filter
        (fun p => preMat (costM rlog sigm C ts (eligPreds ts preds ans)
          (inBoxCenterMatrix ts preds ans))
          (dynKs ts (eligPreds ts preds ans)) t p = true)).card
      = (dynKs ts (eligPreds ts preds ans)).getD t 0
    ∧ ∀ p q : ℕ, p < (eligPreds ts preds ans).length →
        q < (eligPreds ts preds ans).length →
        preMat (costM rlog sigm C ts (eligPreds ts preds ans)
          (inBoxCenterMatrix ts preds ans))
          (dynKs ts (eligPreds ts preds ans)) t p = true →
        preMat (costM rlog sigm C ts (eligPreds ts preds ans)
          (inBoxCenterMatrix ts preds ans))
          (dynKs ts (eligPreds ts preds ans)) t q = false →
        ltIdx (fun j => ((costM rlog sigm C ts (eligPreds ts preds ans)
          (inBoxCenterMatrix ts preds ans)).getD t []).getD j 0) p q := by
  refine ⟨⟨?_, ?_, ?_⟩, preMat_row_card rlog sigm C ts preds ans hT hPr hne ht, ?_⟩
  · rw [dynKs_getD ts (eligPreds ts preds ans) ht]
    unfold dynK
    exact Int.toNat_of_nonneg (le_trans (by omega) (le_max_left 1 _))
  · rw [dynKs_getD ts (eligPreds ts preds ans) ht]
    exact dynK_pos _ _
  · exact dynKs_le_P ts preds ans hT hPr hne ht
  · intro p q hp hq hmp hmq
    have h1 := (preMat_entry_iff rlog sigm C ts preds ans ht p).mp hmp
    have h2 : ¬ rnk (ltIdx (fun j => ((costM rlog sigm C ts (eligPreds ts preds ans)
        (inBoxCenterMatrix ts preds ans)).getD t []).getD j 0))
        (eligPreds ts preds ans).length q
        < (dynKs ts (eligPreds ts preds ans)).getD t 0 := by
      intro hcon
      have := (preMat_entry_iff rlog sigm C ts preds ans ht q).mpr hcon
      rw [this] at hmq
      exact Bool.noConfusion hmq
    exact rnk_served_first (ltIdx_trans _) (ltIdx_irrefl _)
      (fun _ _ h => ltIdx_total _ h) hq h1 h2

/-- Concrete instantiation of `dynamic_k_row_selection` (its row-cardinality
component). -/
theorem dynamic_k_row_selection_witness :
    ((Finset.range (eligPreds [⟨0, 0, ⟨0, 0, 1, 1⟩⟩, ⟨0, 1, ⟨0, 0, 1, 1⟩⟩]
        [⟨⟨0, 0, 1, 1⟩, [0, 0]⟩] [⟨0, 0, 1⟩]).length).filter
        (fun p => preMat (costM (fun _ => 0) (fun _ => 1 / 2) 2
          [⟨0, 0, ⟨0, 0, 1, 1⟩⟩, ⟨0, 1, ⟨0, 0, 1, 1⟩⟩]
          (eligPreds [⟨0, 0, ⟨0, 0, 1, 1⟩⟩, ⟨0, 1, ⟨0, 0, 1, 1⟩⟩]
            [⟨⟨0, 0, 1, 1⟩, [0, 0]⟩] [⟨0, 0, 1⟩])
          (inBoxCenterMatrix [⟨0, 0, ⟨0, 0, 1, 1⟩⟩, ⟨0, 1, ⟨0, 0, 1, 1⟩⟩]
            [⟨⟨0, 0, 1, 1⟩, [0, 0]⟩] [⟨0, 0, 1⟩]))
          (dynKs [⟨0, 0, ⟨0, 0, 1, 1⟩⟩, ⟨0, 1, ⟨0, 0, 1, 1⟩⟩]
            (eligPreds [⟨0, 0, ⟨0, 0, 1, 1⟩⟩, ⟨0, 1, ⟨0, 0, 1, 1⟩⟩]
              [⟨⟨0, 0, 1, 1⟩, [0, 0]⟩] [⟨0, 0, 1⟩])) 0 p = true)).card
      = (dynKs [⟨0, 0, ⟨0, 0, 1, 1⟩⟩, ⟨0, 1, ⟨0, 0, 1, 1⟩⟩]
          (eligPreds [⟨0, 0, ⟨0, 0, 1, 1⟩⟩, ⟨0, 1, ⟨0, 0, 1, 1⟩⟩]
            [⟨⟨0, 0, 1, 1⟩, [0, 0]⟩] [⟨0, 0, 1⟩])).getD 0 0 :=
  (dynamic_k_row_selection (fun _ => 0) (fun _ => 1 / 2) 2
    [⟨0, 0, ⟨0, 0, 1, 1⟩⟩, ⟨0, 1, ⟨0, 0, 1, 1⟩⟩] [⟨⟨0, 0, 1, 1⟩, [0, 0]⟩]
    [⟨0, 0, 1⟩] (by with_unfolding_all decide) (by with_unfolding_all decide)
    (by with_unfolding_all decide) (by with_unfolding_all decide)).2.1

/-- C2 counterexample: two identical-box targets with different class ids
contest the single eligible anchor; target 1 is inside-box-and-center
eligible, but after conflict resolution the only anchor carries class 0,
so no anchor is matched to target 1's class. -/
theorem eligible_target_can_lose_all_anchors :
    (bEntry (inBoxCenterMatrix [⟨0, 0, ⟨0, 0, 1, 1⟩⟩, ⟨0, 1, ⟨0, 0, 1, 1⟩⟩]
        [⟨⟨0, 0, 1, 1⟩, [0, 0]⟩] [⟨0, 0, 1⟩]) 1 0 = true)
    ∧ assignImage (fun _ => 0) (fun _ => 1 / 2) 2 [⟨0, 0, 1⟩]
        [⟨⟨0, 0, 1, 1⟩, [0, 0]⟩] [⟨0, 0, ⟨0, 0, 1, 1⟩⟩, ⟨0, 1, ⟨0, 0, 1, 1⟩⟩]
      = some ⟨[true], [⟨0, 0, 1, 1⟩], [1], [0]⟩ := by
  with_unfolding_all decide

/-- C2 (amended): before conflict resolution every target row marks at
least one candidate (the clamp forces k ≥ 1); the counterexample above
shows the post-resolution form of the claim fails. -/
theorem pre_resolution_row_marked (rlog sigm : ℚ → ℚ) (C : ℕ) (ts : List Tgt)
    (preds : List Pred) (ans : List Anchor)
    (hT : ∀ tg ∈ ts, tg.box.posArea) (hPr : ∀ pr ∈ preds, pr.box.valid)
    (hne : 1 ≤ (eligPairs ts preds ans).length) {t : ℕ} (ht : t < ts.length) :
    1 ≤ ((Finset.range (eligPreds ts preds ans).length).filter
        (fun p => preMat (costM rlog sigm C ts (eligPreds ts preds ans)
          (inBoxCenterMatrix ts preds ans))
          (dynKs ts (eligPreds ts preds ans)) t p = true)).card := by
  rw [preMat_row_card rlog sigm C ts preds ans hT hPr hne ht,
    dynKs_getD ts (eligPreds ts preds ans) ht]
  exact dynK_pos _ _

/-- Concrete instantiation of `pre_resolution_row_marked`. -/
theorem pre_resolution_row_marked_witness :
    1 ≤ ((Finset.range (eligPreds [⟨0, 0, ⟨0, 0, 1, 1⟩⟩, ⟨0, 1, ⟨0, 0, 1, 1⟩⟩]
        [⟨⟨0, 0, 1, 1⟩, [0, 0]⟩] [⟨0, 0, 1⟩]).length).filter
        (fun p => preMat (costM (fun _ => 0) (fun _ => 1 / 2) 2
          [⟨0, 0, ⟨0, 0, 1, 1⟩⟩, ⟨0, 1, ⟨0, 0, 1, 1⟩⟩]
          (eligPreds [⟨0, 0, ⟨0, 0, 1, 1⟩⟩, ⟨0, 1, ⟨0, 0, 1, 1⟩⟩]
            [⟨⟨0, 0, 1, 1⟩, [0, 0]⟩] [⟨0, 0, 1⟩])
          (inBoxCenterMatrix [⟨0, 0, ⟨0, 0, 1, 1⟩⟩, ⟨0, 1, ⟨0, 0, 1, 1⟩⟩]
            [⟨⟨0, 0, 1, 1⟩, [0, 0]⟩] [⟨0, 0, 1⟩]))
          (dynKs [⟨0, 0, ⟨0, 0, 1, 1⟩⟩, ⟨0, 1, ⟨0, 0, 1, 1⟩⟩]
            (eligPreds [⟨0, 0, ⟨0, 0, 1, 1⟩⟩, ⟨0, 1, ⟨0, 0, 1, 1⟩⟩]
              [⟨⟨0, 0, 1, 1⟩, [0, 0]⟩] [⟨0, 0, 1⟩])) 1 p = true)).card :=
  pre_resolution_row_marked (fun _ => 0) (fun _ => 1 / 2) 2
    [⟨0, 0, ⟨0, 0, 1, 1⟩⟩, ⟨0, 1, ⟨0, 0, 1, 1⟩⟩] [⟨⟨0, 0, 1, 1⟩, [0, 0]⟩]
    [⟨0, 0, 1⟩] (by with_unfolding_all decide) (by with_unfolding_all decide)
    (by with_unfolding_all decide) (by with_unfolding_all decide)


set_option maxRecDepth 2500 in
/-- C3 counterexample: target 1's inside-box-and-center row is all false
(zero geometrically qualifying candidates), yet the call succeeds and
anchor 1 is matched and carries target 1's class id 1 — the 1e5 penalty
does not keep penalized pairs out of the per-target top-k once k exceeds
the number of qualifying pairs (here k = 1 > 0).  `rlog` is instantiated
with the rational floor, `sigm` with the constant 0. -/
theorem zero_eligible_target_gets_label :
    ((inBoxCenterMatrix [⟨0, 0, ⟨0, 0, 2, 1⟩⟩, ⟨0, 1, ⟨10, 10, 12, 11⟩⟩]
        [⟨⟨0, 0, 2, 1⟩, [0, 0]⟩, ⟨⟨10, 10, 12, 11⟩, [0, 0]⟩]
        [⟨0, 0, 1⟩, ⟨1, 0, 1⟩]).getD 1 [] = [false, false])
    ∧ assignImage (fun x => (⌊x⌋ : ℤ)) (fun _ => 0) 2 [⟨0, 0, 1⟩, ⟨1, 0, 1⟩]
        [⟨⟨0, 0, 2, 1⟩, [0, 0]⟩, ⟨⟨10, 10, 12, 11⟩, [0, 0]⟩]
        [⟨0, 0, ⟨0, 0, 2, 1⟩⟩, ⟨0, 1, ⟨10, 10, 12, 11⟩⟩]
      = some ⟨[true, true], [⟨0, 0, 2, 1⟩, ⟨10, 10, 12, 11⟩], [1, 1], [0, 1]⟩ := by
  refine ⟨by with_unfolding_all decide, ?_⟩
  with_unfolding_all decide

theorem dtk_none_of_empty (rlog sigm : ℚ → ℚ) (C : ℕ) (ts : List Tgt)
    (preds : List Pred) (ans : List Anchor)
    (hP : (eligPairs ts preds ans).length = 0) (hts : ts ≠ []) :
    dynamicTopk rlog sigm C ts (eligPreds ts preds ans)
      (inBoxCenterMatrix ts preds ans) = none := by
  have hpe : eligPreds ts preds ans = [] := by
    rw [← List.length_eq_zero, eligPreds_length]
    exact hP
  rw [hpe]
  have h0 : 0 < ts.length := List.length_pos.mpr hts
  have hb : ¬ ((ts.all (fun t => decide (t.cid < C))
      && (List.range ts.length).all
        (fun t => decide ((dynKs ts []).getD t 0 ≤ (List.length ([] : List Pred))))) = true) := by
    intro hb
    rcases Bool.and_eq_true_iff.mp hb with ⟨_, hall⟩
    have hle := of_decide_eq_true (List.all_eq_true.mp hall 0 (List.mem_range.mpr h0))
    rw [dynKs_getD ts [] h0] at hle
    have h1 := dynK_pos ((pairIouM ts []).getD 0 []) (min 10 (List.length ([] : List Pred)))
    have h2l : (List.length ([] : List Pred)) = 0 := rfl
    omega
  unfold dynamicTopk
  rw [if_neg hb]

/-- C3 (amended): a target with zero inside-box-and-center candidates does
not make `dynamic_topk` fail as long as the image has at least one eligible
anchor — but it is then not necessarily unmatched, since its clamped k ≥ 1
top-k draws from penalized pairs, so an anchor can receive its label;
and when no anchor at all is eligible while at least one target exists, the
per-target top-k is asked for k = 1 of 0 candidates and the call fails
instead of returning background outputs. -/
theorem dynamicTopk_success_and_failure (rlog sigm : ℚ → ℚ) (C : ℕ)
    (ts : List Tgt) (preds : List Pred) (ans : List Anchor)
    (hT : ∀ tg ∈ ts, tg.box.posArea) (hPr : ∀ pr ∈ preds, pr.box.valid)
    (hC : ∀ tg ∈ ts, tg.cid < C) :
    (1 ≤ (eligPairs ts preds ans).length →
      (dynamicTopk rlog sigm C ts (eligPreds ts preds ans)
        (inBoxCenterMatrix ts preds ans)).isSome = true)
    ∧ ((eligPairs ts preds ans).length = 0 → ts ≠ [] →
      dynamicTopk rlog sigm C ts (eligPreds ts preds ans)
        (inBoxCenterMatrix ts preds ans) = none) := by
  constructor
  · intro hne
    rw [dynamicTopk_isSome_iff]
    refine ⟨hC, fun t htl => ?_⟩
    exact le_trans (dynKs_le_P ts preds ans hT hPr hne htl) (min_le_right _ _)
  · exact dtk_none_of_empty rlog sigm C ts preds ans

/-- Concrete instantiation of `dynamicTopk_success_and_failure` (success
side, one eligible anchor). -/
theorem dynamicTopk_success_witness :
    (dynamicTopk (fun _ => 0) (fun _ => 1 / 2) 2
        [⟨0, 0, ⟨0, 0, 1, 1⟩⟩, ⟨0, 1, ⟨0, 0, 1, 1⟩⟩]
        (eligPreds [⟨0, 0, ⟨0, 0, 1, 1⟩⟩, ⟨0, 1, ⟨0, 0, 1, 1⟩⟩]
          [⟨⟨0, 0, 1, 1⟩, [0, 0]⟩] [⟨0, 0, 1⟩])
        (inBoxCenterMatrix [⟨0, 0, ⟨0, 0, 1, 1⟩⟩, ⟨0, 1, ⟨0, 0, 1, 1⟩⟩]
          [⟨⟨0, 0, 1, 1⟩, [0, 0]⟩] [⟨0, 0, 1⟩])).isSome = true :=
  (dynamicTopk_success_and_failure (fun _ => 0) (fun _ => 1 / 2) 2
    [⟨0, 0, ⟨0, 0, 1, 1⟩⟩, ⟨0, 1, ⟨0, 0, 1, 1⟩⟩] [⟨⟨0, 0, 1, 1⟩, [0, 0]⟩]
    [⟨0, 0, 1⟩] (by with_unfolding_all decide) (by with_unfolding_all decide)
    (by with_unfolding_all decide)).1 (by with_unfolding_all decide)

/-! ## Batch assembly and the diagnostic state -/

theorem assignImageS_map_fst (rlog sigm : ℚ → ℚ) (C : ℕ) (ans : List Anchor)
    (preds : List Pred) (tgts : List Tgt) (s : ℚ) :
    (assignImageS rlog sigm C ans preds tgts s).map Prod.fst
      = assignImage rlog sigm C ans preds tgts := by
  unfold assignImageS assignImage
  split
  · rfl
  · split <;> rfl

theorem go_map_fst (rlog sigm : ℚ → ℚ) (C : ℕ) (ans : List Anchor)
    (targets : List Tgt) :
    ∀ (predsB : List (List Pred)) (bi : ℕ) (s₁ s₂ : ℚ),
      (assignImagesGo rlog sigm C ans targets predsB bi s₁).map Prod.fst
        = (assignImagesGo rlog sigm C ans targets predsB bi s₂).map Prod.fst := by
  intro predsB
  induction predsB with
  | nil => intro bi s₁ s₂; rfl
  | cons ps rest ih =>
    intro bi s₁ s₂
    have hps := assignImageS_map_fst rlog sigm C ans ps
      (targets.filter (fun t => t.img = bi))
    unfold assignImagesGo
    rcases h1 : assignImageS rlog sigm C ans ps
        (targets.filter (fun t => t.img = bi)) s₁ with _ | ⟨o₁, u₁⟩ <;>
      rcases h2 : assignImageS rlog sigm C ans ps
        (targets.filter (fun t => t.img = bi)) s₂ with _ | ⟨o₂, u₂⟩
    · rfl
    · exfalso
      have e1 := hps s₁
      have e2 := hps s₂
      rw [h1] at e1
      rw [h2] at e2
      rw [← e2] at e1
      exact Option.noConfusion e1
    · exfalso
      have e1 := hps s₁
      have e2 := hps s₂
      rw [h1] at e1
      rw [h2] at e2
      rw [← e2] at e1
      exact Option.noConfusion e1
    · have e1 := hps s₁
      have e2 := hps s₂
      rw [h1] at e1
      rw [h2] at e2
      rw [← e2] at e1
      have ho : o₁ = o₂ := by
        simpa using e1
      subst ho
      have ihr := ih (bi + 1) u₁ u₂
      dsimp only
      rcases g1 : assignImagesGo rlog sigm C ans targets rest (bi + 1) u₁
          with _ | ⟨os₁, t₁⟩ <;>
        rcases g2 : assignImagesGo rlog sigm C ans targets rest (bi + 1) u₂
          with _ | ⟨os₂, t₂⟩
      · rfl
      · rw [g1, g2] at ihr
        simp at ihr
      · rw [g1, g2] at ihr
        simp at ihr
      · rw [g1, g2] at ihr
        simp only [Option.map_some'] at ihr
        simp [Option.some.inj ihr]

theorem go_some (rlog sigm : ℚ → ℚ) (C : ℕ) (ans : List Anchor)
    (targets : List Tgt) :
    ∀ (predsB : List (List Pred)) (bi : ℕ) (s : ℚ) (os : List ImageOut) (s' : ℚ),
      assignImagesGo rlog sigm C ans targets predsB bi s = some (os, s') →
      os.length = predsB.length ∧
        ∀ i, i < predsB.length →
          assignImage rlog sigm C ans (predsB.getD i [])
              (targets.filter (fun t => t.img = bi + i))
            = some (os.getD i default) := by
  intro predsB
  induction predsB with
  | nil =>
    intro bi s os s' h
    unfold assignImagesGo at h
    have hpair := Option.some.inj h
    obtain rfl : os = [] := (congrArg Prod.fst hpair).symm
    exact ⟨rfl, fun i hi => absurd hi (Nat.not_lt_zero i)⟩
  | cons ps rest ih =>
    intro bi s os s' h
    unfold assignImagesGo at h
    rcases h1 : assignImageS rlog sigm C ans ps
        (targets.filter (fun t => t.img = bi)) s with _ | ⟨o, u⟩ <;>
      rw [h1] at h <;> dsimp only at h
    · exact Option.noConfusion h
    · rcases h2 : assignImagesGo rlog sigm C ans targets rest (bi + 1) u
          with _ | ⟨os₂, s₂⟩ <;> rw [h2] at h <;> dsimp only at h
      · exact Option.noConfusion h
      · have hpair := Option.some.inj h
        have hos : o :: os₂ = os := congrArg Prod.fst hpair
        rcases ih (bi + 1) u os₂ s₂ h2 with ⟨hlen, hall⟩
        subst hos
        constructor
        · simp [hlen]
        · intro i hi
          cases i with
          | zero =>
            have e1 := assignImageS_map_fst rlog sigm C ans ps
              (targets.filter (fun t => t.img = bi)) s
            rw [h1] at e1
            simpa using e1.symm
          | succ j =>
            have hj : j < rest.length := by simpa using hi
            have hstep := hall j hj
            have harith : bi + 1 + j = bi + (j + 1) := by omega
            rw [harith] at hstep
            simpa using hstep

/-- C10: the four outputs are a deterministic function of the inputs: the
diagnostic `self.max_topk` state is written but never read, so the output
part of `assign_batch` does not depend on the incoming state, and running
the assignment a second time (from whatever state the first run left)
returns the same outputs. -/
theorem assign_deterministic (rlog sigm : ℚ → ℚ) (C : ℕ) (ans : List Anchor)
    (predsB : List (List Pred)) (targets : List Tgt) (s₁ s₂ : ℚ) :
    ((assignBatchS rlog sigm C ans predsB targets s₁).map Prod.fst
      = (assignBatchS rlog sigm C ans predsB targets s₂).map Prod.fst)
    ∧ ((assignBatchS rlog sigm C ans predsB targets s₁).bind
        (fun z => assignBatchS rlog sigm C ans predsB targets z.2)).map Prod.fst
      = (assignBatchS rlog sigm C ans predsB targets s₁).map Prod.fst := by
  have hmain : ∀ u₁ u₂ : ℚ,
      (assignBatchS rlog sigm C ans predsB targets u₁).map Prod.fst
        = (assignBatchS rlog sigm C ans predsB targets u₂).map Prod.fst := by
    intro u₁ u₂
    unfold assignBatchS
    have hg := go_map_fst rlog sigm C ans targets predsB 0 u₁ u₂
    rcases g1 : assignImagesGo rlog sigm C ans targets predsB 0 u₁
        with _ | ⟨os₁, t₁⟩ <;>
      rcases g2 : assignImagesGo rlog sigm C ans targets predsB 0 u₂
        with _ | ⟨os₂, t₂⟩ <;>
      rw [g1, g2] at hg <;> simp at hg <;> simp [hg]
  refine ⟨hmain s₁ s₂, ?_⟩
  rcases hb : assignBatchS rlog sigm C ans predsB targets s₁ with _ | ⟨b, s'⟩
  · rfl
  · have := hmain s' s₁
    rw [hb] at this
    simpa using this

/-- C9: the four batch outputs are the image-index-major concatenation of
the per-image outputs, image `bi` being assigned from its own predictions
and exactly the targets whose collate id equals `bi`. -/
theorem batch_concat_image_major (rlog sigm : ℚ → ℚ) (C : ℕ) (ans : List Anchor)
    (predsB : List (List Pred)) (targets : List Tgt) (out : BatchOut)
    (h : assignBatch rlog sigm C ans predsB targets = some out) :
    ∃ os : List ImageOut, os.length = predsB.length
      ∧ (∀ bi, bi < predsB.length →
          assignImage rlog sigm C ans (predsB.getD bi [])
              (targets.filter (fun t => t.img = bi)) = some (os.getD bi default))
      ∧ out.mask = (os.map ImageOut.mask).flatten
      ∧ out.boxT = (os.map ImageOut.boxT).flatten
      ∧ out.objT = (os.map ImageOut.objT).flatten
      ∧ out.clsT = (os.map ImageOut.clsT).flatten := by
  unfold assignBatch assignBatchS at h
  rcases hg : assignImagesGo rlog sigm C ans targets predsB 0 1
      with _ | ⟨os, s'⟩ <;> rw [hg] at h
  · exact Option.noConfusion h
  · have hout : out = collectOuts os := by
      simpa using (Option.some.inj h).symm
    rcases go_some rlog sigm C ans targets predsB 0 1 os s' hg with ⟨hlen, hall⟩
    subst hout
    refine ⟨os, hlen, ?_, rfl, rfl, rfl, rfl⟩
    intro bi hbi
    have := hall bi hbi
    simpa using this

/-- Concrete instantiation of `batch_concat_image_major` (a two-image batch,
image 0 with one target, image 1 empty). -/
theorem batch_concat_image_major_witness :
    (assignBatch (fun _ => 0) (fun _ => 1 / 2) 2 [⟨0, 0, 1⟩]
        [[⟨⟨0, 0, 1, 1⟩, [0, 0]⟩], [⟨⟨0, 0, 1, 1⟩, [0, 0]⟩]]
        [⟨0, 0, ⟨0, 0, 1, 1⟩⟩]
      = some ⟨[true, false], [⟨0, 0, 1, 1⟩], [1, 0], [0, 0]⟩)
    ∧ ∃ os : List ImageOut,
        os.length = ([[⟨⟨0, 0, 1, 1⟩, [0, 0]⟩],
          [⟨⟨0, 0, 1, 1⟩, [0, 0]⟩]] : List (List Pred)).length
        ∧ (∀ bi, bi < ([[⟨⟨0, 0, 1, 1⟩, [0, 0]⟩],
            [⟨⟨0, 0, 1, 1⟩, [0, 0]⟩]] : List (List Pred)).length →
            assignImage (fun _ => 0) (fun _ => 1 / 2) 2 [⟨0, 0, 1⟩]
                (([[⟨⟨0, 0, 1, 1⟩, [0, 0]⟩],
                  [⟨⟨0, 0, 1, 1⟩, [0, 0]⟩]] : List (List Pred)).getD bi [])
                (([⟨0, 0, ⟨0, 0, 1, 1⟩⟩] : List Tgt).filter (fun t => t.img = bi))
              = some (os.getD bi default))
        ∧ (⟨[true, false], [⟨0, 0, 1, 1⟩], [1, 0], [0, 0]⟩ : BatchOut).mask
            = (os.map ImageOut.mask).flatten
        ∧ (⟨[true, false], [⟨0, 0, 1, 1⟩], [1, 0], [0, 0]⟩ : BatchOut).boxT
            = (os.map ImageOut.boxT).flatten
        ∧ (⟨[true, false], [⟨0, 0, 1, 1⟩], [1, 0], [0, 0]⟩ : BatchOut).objT
            = (os.map ImageOut.objT).flatten
        ∧ (⟨[true, false], [⟨0, 0, 1, 1⟩], [1, 0], [0, 0]⟩ : BatchOut).clsT
            = (os.map ImageOut.clsT).flatten :=
  ⟨by with_unfolding_all decide,
    batch_concat_image_major (fun _ => 0) (fun _ => 1 / 2) 2 [⟨0, 0, 1⟩]
      [[⟨⟨0, 0, 1, 1⟩, [0, 0]⟩], [⟨⟨0, 0, 1, 1⟩, [0, 0]⟩]]
      [⟨0, 0, ⟨0, 0, 1, 1⟩⟩] ⟨[true, false], [⟨0, 0, 1, 1⟩], [1, 0], [0, 0]⟩
      (by with_unfolding_all decide)⟩

/-- C4 (code bug): an image with zero targets returns, without error, the
all-false match mask, the empty box target and zero quality targets the
claim describes — but its class target is 0 (`new_zeros`), a valid class
id, not the background sentinel `num_classes` (= 1 here), contradicting
the `background = num_classes` convention of the non-empty branch. -/
theorem empty_target_image_class_zero :
    assignImage (fun _ => 0) (fun _ => 0) 1 [⟨0, 0, 1⟩] [⟨⟨0, 0, 1, 1⟩, [0]⟩] []
      = some ⟨[false], [], [0], [0]⟩ ∧ (0 : ℕ) ≠ 1 :=
  ⟨by with_unfolding_all decide, by decide⟩

/-- C8 (code bug): in a batch holding one empty-target image, the single
anchor is unmatched (mask false) and its quality target is 0 ∈ [0, 1] and
its class target 0 lies in {0, …, num_classes}, but that class target is
not the background sentinel `num_classes` (= 1 here), which the claim
requires for every unmatched anchor. -/
theorem unmatched_anchor_class_not_sentinel :
    assignBatch (fun _ => 0) (fun _ => 0) 1 [⟨0, 0, 1⟩] [[⟨⟨0, 0, 1, 1⟩, [0]⟩]] []
      = some ⟨[false], [], [0], [0]⟩ ∧ (0 : ℕ) ≠ 1 :=
  ⟨by with_unfolding_all decide, by decide⟩

/-! ## Center sampling against the spec's wording -/

theorem inBoxB_iff (t : Tgt) (an : Anchor) :
    inBoxB t an = true ↔ SpecInsideBox t an := by
  unfold inBoxB SpecInsideBox
  simp only [decide_eq_true_eq, lt_min_iff]
  tauto

theorem inCenterB_iff (t : Tgt) (an : Anchor) :
    inCenterB t an = true ↔ SpecInsideCenter t an := by
  unfold inCenterB SpecInsideCenter
  simp only [decide_eq_true_eq, max_lt_iff]

theorem isInBoxesAnchor_iff (ts : List Tgt) (an : Anchor) :
    isInBoxesAnchor ts an = true
      ↔ ∃ t ∈ ts, SpecInsideBox t an ∨ SpecInsideCenter t an := by
  unfold isInBoxesAnchor
  simp only [Bool.or_eq_true, List.any_eq_true, inBoxB_iff, inCenterB_iff]
  constructor
  · rintro (⟨t, ht, h⟩ | ⟨t, ht, h⟩)
    · exact ⟨t, ht, Or.inl h⟩
    · exact ⟨t, ht, Or.inr h⟩
  · rintro ⟨t, ht, h | h⟩
    · exact Or.inl ⟨t, ht, h⟩
    · exact Or.inr ⟨t, ht, h⟩

/-- C7: an anchor is geometrically eligible iff, for some target, all four
signed center-to-edge distances are strictly positive (inside-box) or the
center lies in the `2.5 × stride` square window around the target's box
center (inside-center); and the returned T × (eligible count) matrix marks
exactly the pairs satisfying both tests. -/
theorem center_sampling_spec (ts : List Tgt) (preds : List Pred)
    (ans : List Anchor) (an : Anchor) {t p : ℕ} (ht : t < ts.length)
    (hp : p < (eligPairs ts preds ans).length) :
    (isInBoxesAnchor ts an = true
      ↔ ∃ tg ∈ ts, SpecInsideBox tg an ∨ SpecInsideCenter tg an)
    ∧ (bEntry (inBoxCenterMatrix ts preds ans) t p = true
      ↔ SpecInsideBox (ts.getD t default) ((eligPairs ts preds ans).getD p default).2
        ∧ SpecInsideCenter (ts.getD t default)
            ((eligPairs ts preds ans).getD p default).2) := by
  refine ⟨isInBoxesAnchor_iff ts an, ?_⟩
  rw [inBoxCenterMatrix_entry ts preds ans ht hp]
  simp only [Bool.and_eq_true, inBoxB_iff, inCenterB_iff]

/-- Concrete instantiation of `center_sampling_spec`. -/
theorem center_sampling_spec_witness :
    (0 < ([⟨0, 0, ⟨0, 0, 1, 1⟩⟩] : List Tgt).length
      ∧ 0 < (eligPairs [⟨0, 0, ⟨0, 0, 1, 1⟩⟩]
          [⟨⟨0, 0, 1, 1⟩, [0, 0]⟩] [⟨0, 0, 1⟩]).length)
    ∧ ((isInBoxesAnchor [⟨0, 0, ⟨0, 0, 1, 1⟩⟩] ⟨0, 0, 1⟩ = true
        ↔ ∃ tg ∈ ([⟨0, 0, ⟨0, 0, 1, 1⟩⟩] : List Tgt),
            SpecInsideBox tg ⟨0, 0, 1⟩ ∨ SpecInsideCenter tg ⟨0, 0, 1⟩)
      ∧ (bEntry (inBoxCenterMatrix [⟨0, 0, ⟨0, 0, 1, 1⟩⟩]
            [⟨⟨0, 0, 1, 1⟩, [0, 0]⟩] [⟨0, 0, 1⟩]) 0 0 = true
        ↔ SpecInsideBox (([⟨0, 0, ⟨0, 0, 1, 1⟩⟩] : List Tgt).getD 0 default)
              ((eligPairs [⟨0, 0, ⟨0, 0, 1, 1⟩⟩] [⟨⟨0, 0, 1, 1⟩, [0, 0]⟩]
                [⟨0, 0, 1⟩]).getD 0 default).2
          ∧ SpecInsideCenter (([⟨0, 0, ⟨0, 0, 1, 1⟩⟩] : List Tgt).getD 0 default)
              ((eligPairs [⟨0, 0, ⟨0, 0, 1, 1⟩⟩] [⟨⟨0, 0, 1, 1⟩, [0, 0]⟩]
                [⟨0, 0, 1⟩]).getD 0 default).2)) :=
  ⟨⟨by with_unfolding_all decide, by with_unfolding_all decide⟩,
    center_sampling_spec _ _ _ _
      (by with_unfolding_all decide) (by with_unfolding_all decide)⟩

/-! ## Conflict resolution -/

theorem postMat_col_le_one (cost : List (List ℚ)) (m : ℕ → ℕ → Bool) (T p : ℕ) :
    colSumB (postMat cost m T) T p ≤ 1 := by
  by_cases h : 1 < colSumB m T p
  · have hpt : ∀ t, postMat cost m T t p
        = decide (t = firstArgmin (fun s => qEntry cost s p) T) := by
      intro t
      unfold postMat
      rw [if_pos h]
    unfold colSumB
    calc ((Finset.range T).filter (fun t => postMat cost m T t p = true)).card
        ≤ ({firstArgmin (fun s => qEntry cost s p) T} : Finset ℕ).card := by
          apply Finset.card_le_card
          intro t htm
          simp only [Finset.mem_filter] at htm
          rw [hpt t, decide_eq_true_eq] at htm
          simp only [Finset.mem_singleton]
          exact htm.2
      _ = 1 := Finset.card_singleton _
  · have hpt : ∀ t, postMat cost m T t p = m t p := by
      intro t
      unfold postMat
      rw [if_neg h]
    unfold colSumB at h ⊢
    have he : (Finset.range T).filter (fun t => postMat cost m T t p = true)
        = (Finset.range T).filter (fun t => m t p = true) := by
      apply Finset.filter_congr
      intro t _
      rw [hpt t]
    rw [he]
    omega

theorem col_le_one_unique {m : ℕ → ℕ → Bool} {T p : ℕ}
    (h : colSumB m T p ≤ 1) {t1 t2 : ℕ} (hl1 : t1 < T) (hl2 : t2 < T)
    (h1 : m t1 p = true) (h2 : m t2 p = true) : t1 = t2 := by
  by_contra hne
  have hsub : ({t1, t2} : Finset ℕ)
      ⊆ (Finset.range T).filter (fun t => m t p = true) := by
    intro x hx
    rcases Finset.mem_insert.mp hx with hx | hx
    · subst hx
      exact Finset.mem_filter.mpr ⟨Finset.mem_range.mpr hl1, h1⟩
    · rw [Finset.mem_singleton.mp hx]
      exact Finset.mem_filter.mpr ⟨Finset.mem_range.mpr hl2, h2⟩
  have hc := Finset.card_le_card hsub
  rw [Finset.card_insert_of_not_mem (by simpa using hne), Finset.card_singleton] at hc
  unfold colSumB at h
  omega

/-- C1: after conflict resolution every column of the matching matrix sums
to at most 1 over the target rows, so no eligible anchor is claimed by two
different targets: any two in-range rows marking the same column coincide. -/
theorem resolved_col_le_one (rlog sigm : ℚ → ℚ) (C : ℕ) (tgts : List Tgt)
    (paired : List Pred) (inBC : List (List Bool)) (p : ℕ) :
    colSumB (finalMat rlog sigm C tgts paired inBC) tgts.length p ≤ 1
    ∧ ∀ t1 t2, t1 < tgts.length → t2 < tgts.length →
        finalMat rlog sigm C tgts paired inBC t1 p = true →
        finalMat rlog sigm C tgts paired inBC t2 p = true → t1 = t2 := by
  have hle : colSumB (finalMat rlog sigm C tgts paired inBC) tgts.length p ≤ 1 :=
    postMat_col_le_one _ _ _ _
  exact ⟨hle, fun t1 t2 hl1 hl2 h1 h2 => col_le_one_unique hle hl1 hl2 h1 h2⟩

/-- Concrete instantiation of `resolved_col_le_one` (two targets contesting
the single eligible anchor; the resolved matrix keeps only row 0). -/
theorem resolved_col_le_one_witness :
    (finalMat (fun _ => 0) (fun _ => 1 / 2) 2
        [⟨0, 0, ⟨0, 0, 1, 1⟩⟩, ⟨0, 1, ⟨0, 0, 1, 1⟩⟩]
        (eligPreds [⟨0, 0, ⟨0, 0, 1, 1⟩⟩, ⟨0, 1, ⟨0, 0, 1, 1⟩⟩]
          [⟨⟨0, 0, 1, 1⟩, [0, 0]⟩] [⟨0, 0, 1⟩])
        (inBoxCenterMatrix [⟨0, 0, ⟨0, 0, 1, 1⟩⟩, ⟨0, 1, ⟨0, 0, 1, 1⟩⟩]
          [⟨⟨0, 0, 1, 1⟩, [0, 0]⟩] [⟨0, 0, 1⟩]) 0 0 = true)
    ∧ (0 : ℕ) = 0 :=
  ⟨by with_unfolding_all decide,
    (resolved_col_le_one (fun _ => 0) (fun _ => 1 / 2) 2
        [⟨0, 0, ⟨0, 0, 1, 1⟩⟩, ⟨0, 1, ⟨0, 0, 1, 1⟩⟩]
        (eligPreds [⟨0, 0, ⟨0, 0, 1, 1⟩⟩, ⟨0, 1, ⟨0, 0, 1, 1⟩⟩]
          [⟨⟨0, 0, 1, 1⟩, [0, 0]⟩] [⟨0, 0, 1⟩])
        (inBoxCenterMatrix [⟨0, 0, ⟨0, 0, 1, 1⟩⟩, ⟨0, 1, ⟨0, 0, 1, 1⟩⟩]
          [⟨⟨0, 0, 1, 1⟩, [0, 0]⟩] [⟨0, 0, 1⟩]) 0).2 0 0
      (by with_unfolding_all decide) (by with_unfolding_all decide)
      (by with_unfolding_all decide) (by with_unfolding_all decide)⟩

/-- Concrete instantiation of `cost_entry_formula`. -/
theorem cost_entry_formula_witness :
    (0 < ([⟨0, 0, ⟨0, 0, 1, 1⟩⟩] : List Tgt).length
      ∧ 0 < (eligPairs [⟨0, 0, ⟨0, 0, 1, 1⟩⟩]
          [⟨⟨0, 0, 1, 1⟩, [0, 0]⟩] [⟨0, 0, 1⟩]).length)
    ∧ qEntry (costM (fun x => x) (fun x => x) 2 [⟨0, 0, ⟨0, 0, 1, 1⟩⟩]
        (eligPreds [⟨0, 0, ⟨0, 0, 1, 1⟩⟩] [⟨⟨0, 0, 1, 1⟩, [0, 0]⟩] [⟨0, 0, 1⟩])
        (inBoxCenterMatrix [⟨0, 0, ⟨0, 0, 1, 1⟩⟩]
          [⟨⟨0, 0, 1, 1⟩, [0, 0]⟩] [⟨0, 0, 1⟩])) 0 0
      = bceRow (fun x => x)
          (((eligPreds [⟨0, 0, ⟨0, 0, 1, 1⟩⟩] [⟨⟨0, 0, 1, 1⟩, [0, 0]⟩]
              [⟨0, 0, 1⟩]).getD 0 default).scores.map (fun x => x))
          (oneHot (([⟨0, 0, ⟨0, 0, 1, 1⟩⟩] : List Tgt).getD 0 default).cid 2)
        + 3 * -((boxIou (([⟨0, 0, ⟨0, 0, 1, 1⟩⟩] : List Tgt).getD 0 default).box
            ((eligPreds [⟨0, 0, ⟨0, 0, 1, 1⟩⟩] [⟨⟨0, 0, 1, 1⟩, [0, 0]⟩]
              [⟨0, 0, 1⟩]).getD 0 default).box + 1 / 100000000))
        + (if bEntry (inBoxCenterMatrix [⟨0, 0, ⟨0, 0, 1, 1⟩⟩]
            [⟨⟨0, 0, 1, 1⟩, [0, 0]⟩] [⟨0, 0, 1⟩]) 0 0 then 0 else 100000) :=
  ⟨⟨by with_unfolding_all decide, by with_unfolding_all decide⟩,
    cost_entry_formula (fun x => x) (fun x => x) 2 _ _ _ (by with_unfolding_all decide) (by with_unfolding_all decide)⟩

end SimOTA
